import Mathlib

/-!
Verification of `src/mapper.py` (VitalyTheGlitch/Mapper).

The script has three modes sharing small utilities: a map scan built on a
square-spiral canvas traversal with per-cell retries, CSV set operations
over address-keyed rows, and a parallel screenshot capture.  This file
gives a shallow embedding of the functions those claims are about and
proves (or refutes) the claimed properties.

Conventions of the embedding:
* Python ints are `ℤ`/`ℕ`; Python `//` is floor division (`Int.fdiv`).
* Python floats are modelled as exact numbers: `ℚ` where only comparisons
  matter (`validate_coordinates`, `validate_radius`), `ℝ` where `math.log2`
  is involved (`compute_zoom`).  `round` is Python's round-half-to-even.
* A string that may or may not parse as a float is `Option ℚ` (`none` when
  `float(...)` raises `ValueError`).
* csv rows are `List String`; `read_csv` produces a `Finset (List String)`
  (Python builds a `set` of tuples; a blank line becomes the empty tuple).
* Generators and unbounded `while` loops take a `fuel` argument and return
  `Option`/`none` when the fuel is exhausted; termination theorems assert
  that some fuel suffices.
* Exception control flow is explicit: a page-interaction environment says
  which browser step raises which exception class, and functions return
  `Except PyExc α`.
-/

namespace Mapper

/-- Python exception classes that occur in mapper.py's control flow. -/
inductive PyExc where
  | valueError
  | indexError
  | nameError
  | playwrightTimeoutError
  | attributeError
  | keyboardInterrupt
  deriving DecidableEq

/-! ## Validators (src/mapper.py lines 16-31) -/

/-- `validate_coordinates` (src/mapper.py lines 16-23).  Each string argument
is modelled as `Option ℚ`: `some v` when `float(..)` parses it to `v`, `none`
when `float(..)` raises `ValueError`, which the surrounding `try` catches,
returning `False`. -/
def validate_coordinates (lat lon : Option ℚ) : Bool :=
  match lat, lon with
  | some la, some lo =>
    decide (-90 ≤ la ∧ la ≤ 90) && decide (-180 ≤ lo ∧ lo ≤ 180)
  | _, _ => false

/-- `validate_radius` (src/mapper.py lines 25-31), same modelling of
`float(..)`/`ValueError` as `validate_coordinates`. -/
def validate_radius (radius : Option ℚ) : Bool :=
  match radius with
  | some r => decide ((0.01 : ℚ) ≤ r ∧ r ≤ 10000)
  | none => false

/-! ## CSV rows and the filter-mode set operations (src/mapper.py lines 74-76, 351-412) -/

/-- A CSV row as produced by Python's `csv.reader`: a tuple of strings.
A blank line in the file becomes the empty tuple `[]`. -/
abbrev Row := List String

/-- `row[0].strip().lower()` — the address key used by filter commands.
Called only on non-empty rows; `headD` supplies a dummy head otherwise. -/
def addrKey (r : Row) : String := (r.headD ("")).trim.toLower

/-- `{row[0].strip().lower() for row in lines if row}`
(src/mapper.py lines 354-355). -/
def addresses (lines : Finset Row) : Finset String :=
  (lines.filter (fun r => r ≠ [])).image addrKey

/-- The Union command result (src/mapper.py lines 357-359):
`{row for row in lines1 if row and row[0].strip().lower() in addresses1} |
 {row for row in lines2 if row and row[0].strip().lower() in addresses2}`. -/
def unionCmd (lines1 lines2 : Finset Row) : Finset Row :=
  lines1.filter (fun r => r ≠ [] ∧ addrKey r ∈ addresses lines1) ∪
  lines2.filter (fun r => r ≠ [] ∧ addrKey r ∈ addresses lines2)

/-- The Difference command result (src/mapper.py lines 368-370):
rows of file 1 whose key is in `addresses1.difference(addresses2)`. -/
def differenceCmd (lines1 lines2 : Finset Row) : Finset Row :=
  lines1.filter (fun r => r ≠ [] ∧ addrKey r ∈ addresses lines1 \ addresses lines2)

/-- The comparison induced by the Sort command's key
`lambda x: x[0].lower()` (src/mapper.py line 409). -/
def sortLe (r s : Row) : Bool :=
  decide ((r.headD ("")).toLower ≤ (s.headD ("")).toLower)

/-- The Sort command (src/mapper.py lines 408-410):
`sorted(lines, key=lambda x: x[0].lower())`.  Python's `sorted` evaluates the
key on every row; on an empty row `x[0]` raises `IndexError`, which nothing in
`filter_locations` catches.  Otherwise it returns the rows in non-decreasing
key order.  `lines` is the set read by `read_csv` in its (arbitrary) iteration
order. -/
def sortCmd (lines : List Row) : Except PyExc (List Row) :=
  if lines.all (fun r => !r.isEmpty) then .ok (lines.mergeSort sortLe)
  else .error .indexError

/-- The Unique command (src/mapper.py lines 392-404): iterate the rows, with
`row[0]` guarded by `try: .. except IndexError: continue` (empty rows are
skipped), keeping the first row seen for each address key. -/
def uniqueCmd : List Row → List String → List Row
  | [], _ => []
  | r :: rest, seen =>
    match r with
    | [] => uniqueCmd rest seen
    | a :: _ =>
      let address := a.trim.toLower
      if address ∈ seen then uniqueCmd rest seen
      else r :: uniqueCmd rest (address :: seen)

/-! ## get_unique_filename (src/mapper.py lines 63-72) -/

/-- The filename `f'locations/{prefix}{index}.csv'` (src/mapper.py line 67). -/
def filenameAt (pfx : String) (index : ℕ) : String :=
  "locations/" ++ pfx ++ toString index ++ ".csv"

/-- `get_unique_filename` (src/mapper.py lines 63-72).  The filesystem is the
oracle `ex` (`os.path.exists`); the unbounded `while True` loop is bounded by
`fuel`, returning `none` when the fuel runs out. -/
def get_unique_filename (ex : String → Bool) (pfx : String) : ℕ → ℕ → Option String
  | 0, _ => none
  | fuel + 1, index =>
    let filename := filenameAt pfx index
    if ex filename then get_unique_filename ex pfx fuel (index + 1)
    else some filename

/-! ## The spiral generator (src/mapper.py lines 82-113) -/

/-- The direction table `[(1, 0), (0, 1), (-1, 0), (0, -1)]`
(src/mapper.py line 90). -/
def directions : List (ℤ × ℤ) := [(1, 0), (0, 1), (-1, 0), (0, -1)]

/-- The inner `for _ in range(segment_length)` loop of `spiral`
(src/mapper.py lines 98-109): step `(x, y)` up to `n` times by
`(dx * step, dy * step)`.  Each step first checks the strict bounding-box
exit (return without yielding), then yields, then checks the
touched-the-boundary exit (return after yielding).  The result is the list
of yielded points together with `some` final position when all `n` steps
complete, `none` when the generator returned inside this segment. -/
def runSegment (x_min x_max y_min y_max step dx dy : ℤ) :
    ℕ → ℤ → ℤ → List (ℤ × ℤ) × Option (ℤ × ℤ)
  | 0, x, y => ([], some (x, y))
  | n + 1, x, y =>
    let x' := x + dx * step
    let y' := y + dy * step
    if x' < x_min ∨ x' > x_max ∨ y' < y_min ∨ y' > y_max then ([], none)
    else if (dx > 0 ∧ x' ≥ x_max) ∨ (dx < 0 ∧ x' ≤ x_min) ∨
            (dy > 0 ∧ y' ≥ y_max) ∨ (dy < 0 ∧ y' ≤ y_min) then ([(x', y')], none)
    else
      let r := runSegment x_min x_max y_min y_max step dx dy n x' y'
      ((x', y') :: r.1, r.2)

/-- The outer `while True` loop of `spiral` (src/mapper.py lines 94-113):
each iteration runs `for _ in range(2)` segments of the current
`segment_length`, rotating `direction = (direction + 1) % 4` after each
segment, then increments `segment_length`.  `fuel` bounds the number of
outer iterations (the Python loop is unbounded; sufficiency of some fuel is
a theorem below); the yielded points are accumulated into the result. -/
def spiralLoop (x_min x_max y_min y_max step : ℤ) :
    ℕ → ℤ → ℤ → ℕ → ℕ → Option (List (ℤ × ℤ))
  | 0, _, _, _, _ => none
  | fuel + 1, x, y, direction, segment_length =>
    let d1 := directions.getD direction (0, 0)
    let s1 := runSegment x_min x_max y_min y_max step d1.1 d1.2 segment_length x y
    match s1.2 with
    | none => some s1.1
    | some p1 =>
      let direction1 := (direction + 1) % 4
      let d2 := directions.getD direction1 (0, 0)
      let s2 := runSegment x_min x_max y_min y_max step d2.1 d2.2 segment_length p1.1 p1.2
      match s2.2 with
      | none => some (s1.1 ++ s2.1)
      | some p2 =>
        (spiralLoop x_min x_max y_min y_max step fuel p2.1 p2.2
            ((direction1 + 1) % 4) (segment_length + 1)).map
          (fun rest => s1.1 ++ s2.1 ++ rest)

/-- `spiral` (src/mapper.py lines 82-113).  `width`, `height` are Python
ints, `limits` is the two-element list `[limits[0], limits[1]]`, and `//`
is Python floor division, i.e. `Int.fdiv`.  The center is yielded first,
unconditionally (line 88); the rest of the yielded sequence comes from the
loop.  `none` means the given fuel did not cover the whole run. -/
def spiral (fuel : ℕ) (width height : ℤ) (limits : ℤ × ℤ) (step : ℤ) :
    Option (List (ℤ × ℤ)) :=
  let x_min := limits.1
  let x_max := width - limits.1
  let y_min := limits.2
  let y_max := height - limits.2
  let x := Int.fdiv width 2
  let y := Int.fdiv height 2
  (spiralLoop x_min x_max y_min y_max step fuel x y 0 1).map
    (fun rest => (x, y) :: rest)

/-! Combinatorial description of the square spiral, used to prove that the
yielded points are pairwise distinct.  Segment `j` (counting from 0 at the
first one-step move away from the center) has length `j / 2 + 1` — the
lengths come in pairs 1, 1, 2, 2, 3, 3, … — and direction `j % 4` in the
`directions` table.  `segStart j` is its start, `segPoint j i` its `i`-th
yielded point, both relative to the center and in units of `step`. -/

/-- Length of the `j`-th straight segment of the square spiral. -/
def segLen (j : ℕ) : ℕ := j / 2 + 1

/-- Unit direction of the `j`-th segment. -/
def segDir (j : ℕ) : ℤ × ℤ := directions.getD (j % 4) (0, 0)

/-- Start corner of the `j`-th segment, relative to the center, in units of
`step`. -/
def segStart : ℕ → ℤ × ℤ
  | 0 => (0, 0)
  | j + 1 =>
    ((segStart j).1 + (segLen j : ℤ) * (segDir j).1,
     (segStart j).2 + (segLen j : ℤ) * (segDir j).2)

/-- The `i`-th point yielded within segment `j` (for `i < segLen j`),
relative to the center, in units of `step`. -/
def segPoint (j i : ℕ) : ℤ × ℤ :=
  ((segStart j).1 + ((i : ℤ) + 1) * (segDir j).1,
   (segStart j).2 + ((i : ℤ) + 1) * (segDir j).2)

/-- The first `m` points of segment `j`, placed on the canvas: centered at
`(cx, cy)` and scaled by `step`. -/
def segPts (cx cy step : ℤ) (j m : ℕ) : List (ℤ × ℤ) :=
  (List.range m).map (fun i =>
    (cx + step * (segPoint j i).1, cy + step * (segPoint j i).2))

/-- The points yielded from the start of segment `j0` through the first
`ik` points of segment `jk`: full segments `j0, …, jk - 1`, then the
truncated last segment. -/
def spanPoints (cx cy step : ℤ) (j0 jk ik : ℕ) : List (ℤ × ℤ) :=
  ((List.range' j0 (jk - j0)).flatMap (fun j => segPts cx cy step j (segLen j))) ++
    segPts cx cy step jk ik

/-! ## The per-cell retry state machine of scan mode (src/mapper.py lines 231-295) -/

/-- Outcome of one iteration of the per-cell retry loop
(src/mapper.py lines 238-264), as determined by the external page:
* `exc` — the `try:` body raises one of the two caught exception classes
  (`PlaywrightTimeoutError`, `AttributeError`);
* `pointer` — the pointer-cursor check on `div[role="application"]` fires,
  so the loop breaks with `success = False` (cell deliberately skipped);
* `ok c` — the right-click resolves and `div[data-index="0"]` holds the
  coordinate text, split into the pair `c`. -/
inductive AttemptOutcome where
  | exc
  | pointer
  | ok (c : String × String)

/-- Outcome of the `div[role="main"]` block (src/mapper.py lines 277-288):
the query or `is_visible()` raises (caught, `pass`), or the dialog is not
visible, or it is visible with `some` address-button text (None when that
inner query raises, caught by `pass`). -/
inductive MainOutcome where
  | exc
  | notVisible
  | visible (addrText : Option String)

/-- The page environment one scan cell interacts with. -/
structure CellEnv where
  /-- outcome of the `i`-th iteration of the retry loop for this cell -/
  attempts : ℕ → AttemptOutcome
  /-- text of the `aria-live` modal dialog button, `none` when the query
  raises (src/mapper.py lines 271-275) -/
  modal : Option String
  /-- outcome of the `div[role="main"]` block (lines 277-288) -/
  main : MainOutcome

/-- Result of the retry loop: total iterations made, failed attempts
(the code's `attempt` counter), `load_browser` reloads performed by the
`except` handler, and the coordinates when an iteration succeeded. -/
structure RetryResult where
  iterations : ℕ
  failures : ℕ
  reloads : ℕ
  coords : Option (String × String)

/-- The `while attempt < max_retries and not success` loop
(src/mapper.py lines 238-264) with `max_retries = 3`.  `left` is
`max_retries - attempt`, so the `left = 0` case is the loop guard failing.
Only a raised exception increments `attempt` (and reloads the page); the
`pointer` branch breaks out of the loop and the `ok` branch sets
`success = True`, so every iteration except possibly the last one is a
failed attempt and the iteration index equals `attempt`. -/
def retryFrom (outcome : ℕ → AttemptOutcome) :
    ℕ → ℕ → ℕ → RetryResult
  | 0, attempt, reloads => ⟨attempt, attempt, reloads, none⟩
  | left + 1, attempt, reloads =>
    match outcome attempt with
    | .exc => retryFrom outcome left (attempt + 1) (reloads + 1)
    | .pointer => ⟨attempt + 1, attempt, reloads, none⟩
    | .ok c => ⟨attempt + 1, attempt, reloads, some c⟩

/-- The whole retry loop for one cell: `attempt = 0`, `max_retries = 3`. -/
def retryLoop (outcome : ℕ → AttemptOutcome) : RetryResult :=
  retryFrom outcome 3 0 0

/-- Address resolution after a successful click (src/mapper.py
lines 269-291): the modal-dialog text first, overwritten by
`text_content()[1:]` of the address button when the `div[role="main"]`
dialog is visible and that query succeeds. -/
def resolveAddress (modal : Option String) (main : MainOutcome) : Option String :=
  match main with
  | .exc => modal
  | .notVisible => modal
  | .visible t =>
    match t with
    | some s => some (s.drop 1)
    | none => modal

/-- The rows the scan-loop body appends to the CSV file for one spiral cell
(src/mapper.py lines 231-295): nothing when the retry loop ends without
success (`if not success: continue`) or when the resolved address is `None`
or empty (`if not address: continue`); otherwise the single row
`[address, coords[0], coords[1]]`. -/
def processCell (env : CellEnv) : List Row :=
  match (retryLoop env.attempts).coords with
  | none => []
  | some c =>
    match resolveAddress env.modal env.main with
    | none => []
    | some a => if a = "" then [] else [[a, c.1, c.2]]

/-! ## capture_location (src/mapper.py lines 419-452) -/

/-- The page environment `capture_location` interacts with: each browser
step either succeeds (`none`) or raises `some` exception class. -/
structure CaptureEnv where
  /-- `page.goto(...)` (line 430) -/
  goto : Option PyExc
  /-- `page.wait_for_selector('canvas')` (line 431) -/
  waitCanvas : Option PyExc
  /-- `page.wait_for_selector('div[role="main"] img')` (line 433) -/
  waitMainImg : Option PyExc

/-- `capture_location` (src/mapper.py lines 419-452).  The `try:` body runs
the page steps in order; reaching line 434 (`page.click(img_selector, ..)`)
evaluates the name `img_selector`, which is defined nowhere, so that line
raises `NameError` unconditionally and the `return 1` below it is
unreachable.  The only handler is `except KeyboardInterrupt`, which returns
0; every other exception propagates out of `capture_location` (and with it
out of `future.result()` in `find_images`). -/
def capture_location (location : Row) (env : CaptureEnv) : Except PyExc ℕ :=
  let body : Except PyExc ℕ :=
    match env.goto with
    | some e => .error e
    | none =>
      match env.waitCanvas with
      | some e => .error e
      | none =>
        match env.waitMainImg with
        | some e => .error e
        | none => .error .nameError
  match body with
  | .error .keyboardInterrupt => .ok 0
  | .error e => .error e
  | .ok n => .ok n

/-! ## compute_zoom (src/mapper.py lines 33-47) -/

open scoped Classical in
/-- Python's built-in `round` on floats: round half to even
(banker's rounding), modelled on the reals. -/
noncomputable def pyRound (x : ℝ) : ℤ :=
  if Int.fract x = 1 / 2 then (if Even ⌊x⌋ then ⌊x⌋ else ⌊x⌋ + 1) else round x

open scoped Classical in
/-- `compute_zoom` (src/mapper.py lines 33-47), with Python floats modelled
as reals and `math.log2` as `Real.logb 2`. -/
noncomputable def compute_zoom (kilometers : ℝ) : ℤ :=
  let meters := kilometers * 1000
  if meters ≤ 71 then 21
  else if meters ≥ 1164888 then 7
  else
    let init_meters : ℝ := 1165116
    let exponent := Real.logb 2 (init_meters / meters)
    pyRound (6 + exponent)

/-! # Theorems -/

/-! ## C7: the input validators -/

/-- Claim C7 (confirmed): `validate_coordinates` returns True iff both
arguments parse as floats with latitude in [-90, 90] and longitude in
[-180, 180], and returns False — rather than letting `ValueError`
propagate — on non-numeric input (`none`); `validate_radius` returns True
iff its argument parses as a float in [0.01, 10000], and returns False on
non-numeric input. -/
theorem validate_coordinates_radius_spec :
    (∀ lat lon : Option ℚ,
      validate_coordinates lat lon = true ↔
        ∃ la lo : ℚ, lat = some la ∧ lon = some lo ∧
          -90 ≤ la ∧ la ≤ 90 ∧ -180 ≤ lo ∧ lo ≤ 180) ∧
    (∀ lon, validate_coordinates none lon = false) ∧
    (∀ lat, validate_coordinates lat none = false) ∧
    (∀ radius : Option ℚ,
      validate_radius radius = true ↔
        ∃ r : ℚ, radius = some r ∧ (0.01 : ℚ) ≤ r ∧ r ≤ 10000) ∧
    validate_radius none = false := by
  refine ⟨fun lat lon => ?_, fun lon => ?_, fun lat => ?_, fun radius => ?_, rfl⟩
  · cases lat with
    | none => simp [validate_coordinates]
    | some la =>
      cases lon with
      | none => simp [validate_coordinates]
      | some lo => simp [validate_coordinates] <;> tauto
  · cases lon <;> rfl
  · cases lat <;> rfl
  · cases radius with
    | none => simp [validate_radius]
    | some r => simp [validate_radius] <;> tauto

/-- Witness for C7: `validate_coordinates` accepts (45.5, -120) and
`validate_radius` rejects a non-numeric radius. -/
theorem validate_coordinates_radius_w :
    validate_coordinates (some (45.5 : ℚ)) (some (-120 : ℚ)) = true ∧
    validate_radius none = false := by
  refine ⟨?_, validate_coordinates_radius_spec.2.2.2.2⟩
  exact (validate_coordinates_radius_spec.1 _ _).mpr
    ⟨45.5, -120, rfl, rfl, by norm_num, by norm_num, by norm_num, by norm_num⟩

/-! ## C5 and C6: the Union and Difference commands -/

/-- In the Union comprehension the address-membership test is vacuous:
every non-empty row's key is in the key set built from the same file. -/
theorem filter_key_mem (l : Finset Row) :
    l.filter (fun r => r ≠ [] ∧ addrKey r ∈ addresses l) =
      l.filter (fun r => r ≠ []) := by
  ext r
  simp only [Finset.mem_filter, addresses, Finset.mem_image]
  constructor
  · rintro ⟨hr, hne, -⟩
    exact ⟨hr, hne⟩
  · rintro ⟨hr, hne⟩
    exact ⟨hr, hne, r, ⟨hr, hne⟩, rfl⟩

/-- Claim C5 (confirmed): the Union command outputs exactly the set of
non-empty rows appearing in either file, is commutative in its two file
arguments, and is idempotent (the union of a file with itself is that
file's set of non-empty rows). -/
theorem unionCmd_spec (lines1 lines2 : Finset Row) :
    (∀ r : Row, r ∈ unionCmd lines1 lines2 ↔
      r ≠ [] ∧ (r ∈ lines1 ∨ r ∈ lines2)) ∧
    unionCmd lines1 lines2 = unionCmd lines2 lines1 ∧
    unionCmd lines1 lines1 = lines1.filter (fun r => r ≠ []) := by
  have h : ∀ l1 l2 : Finset Row, unionCmd l1 l2 =
      l1.filter (fun r => r ≠ []) ∪ l2.filter (fun r => r ≠ []) := by
    intro l1 l2
    rw [unionCmd, filter_key_mem, filter_key_mem]
  refine ⟨fun r => ?_, ?_, ?_⟩
  · rw [h]
    simp only [Finset.mem_union, Finset.mem_filter]
    tauto
  · rw [h, h, Finset.union_comm]
  · rw [h, Finset.union_self]

/-- Witness for C5 at concrete files. -/
theorem unionCmd_w :
    (["10 Main St", "1.0", "2.0"] : Row) ∈
      unionCmd {(["10 Main St", "1.0", "2.0"] : Row)} {(["5 Oak Ave", "3.0", "4.0"] : Row)} := by
  exact (unionCmd_spec _ _).1 _ |>.mpr ⟨by simp, Or.inl (by simp)⟩

/-- Claim C6 (confirmed): the Difference command outputs exactly the
non-empty rows of the first file whose lowercased, trimmed first field does
not occur as the address key of any (necessarily non-empty) row of the
second file, and no row of the second file appears in the output. -/
theorem differenceCmd_spec (lines1 lines2 : Finset Row) :
    (∀ r : Row, r ∈ differenceCmd lines1 lines2 ↔
      r ∈ lines1 ∧ r ≠ [] ∧ ¬ ∃ q ∈ lines2, q ≠ [] ∧ addrKey q = addrKey r) ∧
    ∀ r ∈ lines2, r ∉ differenceCmd lines1 lines2 := by
  have hmem : ∀ r : Row, r ∈ differenceCmd lines1 lines2 ↔
      r ∈ lines1 ∧ r ≠ [] ∧ addrKey r ∉ addresses lines2 := by
    intro r
    simp only [differenceCmd, Finset.mem_filter, Finset.mem_sdiff]
    constructor
    · rintro ⟨hr, hne, -, hk2⟩
      exact ⟨hr, hne, hk2⟩
    · rintro ⟨hr, hne, hk2⟩
      refine ⟨hr, hne, ?_, hk2⟩
      simp only [addresses, Finset.mem_image]
      exact ⟨r, Finset.mem_filter.2 ⟨hr, hne⟩, rfl⟩
  have haddr : ∀ r : Row, addrKey r ∈ addresses lines2 ↔
      ∃ q ∈ lines2, q ≠ [] ∧ addrKey q = addrKey r := by
    intro r
    simp only [addresses, Finset.mem_image, Finset.mem_filter]
    constructor
    · rintro ⟨q, ⟨hq, hqne⟩, hk⟩
      exact ⟨q, hq, hqne, hk⟩
    · rintro ⟨q, hq, hqne, hk⟩
      exact ⟨q, ⟨hq, hqne⟩, hk⟩
  refine ⟨fun r => by rw [hmem, haddr], fun r hr hmem2 => ?_⟩
  obtain ⟨-, hne, hk⟩ := (hmem r).1 hmem2
  exact hk ((haddr r).2 ⟨r, hr, hne, rfl⟩)

/-- Witness for C6 at concrete files: a row of file 1 whose address key
also occurs in file 2 is excluded even though the rows differ. -/
theorem differenceCmd_w :
    (["10 Main St", "1.0", "2.0"] : Row) ∉
      differenceCmd {(["10 Main St", "1.0", "2.0"] : Row)} {(["10 Main St", "9.9", "9.9"] : Row)} := by
  intro h
  obtain ⟨-, -, hk⟩ := (differenceCmd_spec _ _).1 _ |>.1 h
  exact hk ⟨["10 Main St", "9.9", "9.9"], by simp, by simp, rfl⟩

/-! ## C10: Sort is unguarded on empty rows, Unique is guarded -/

/-- Claim C10 (confirmed): on a file whose rows are all non-empty, the Sort
command returns the rows in non-decreasing order of the lowercased first
field; on any file with a blank line (an empty tuple from `read_csv`) it
raises an uncaught `IndexError`; the Unique command on the same input
catches the `IndexError` and skips the empty row. -/
theorem sortCmd_uniqueCmd_spec :
    (∀ lines : List Row, ([] : Row) ∉ lines →
      ∃ out, sortCmd lines = .ok out ∧ out.Perm lines ∧
        out.Pairwise (fun r s => (r.headD ("")).toLower ≤ (s.headD ("")).toLower)) ∧
    sortCmd [["a", "1", "2"], []] = .error .indexError ∧
    uniqueCmd [["a", "1", "2"], []] [] = [["a", "1", "2"]] := by
  refine ⟨fun lines hne => ?_, rfl, rfl⟩
  have hall : lines.all (fun r => !r.isEmpty) = true := by
    rw [List.all_eq_true]
    intro r hr
    cases r with
    | nil => exact absurd hr hne
    | cons a t => rfl
  refine ⟨lines.mergeSort sortLe, by rw [sortCmd, if_pos hall],
    List.mergeSort_perm lines sortLe, ?_⟩
  have htrans : ∀ a b c : Row, sortLe a b → sortLe b c → sortLe a c := by
    intro a b c h1 h2
    simp only [sortLe, decide_eq_true_eq] at h1 h2 ⊢
    exact le_trans h1 h2
  have htotal : ∀ a b : Row, sortLe a b || sortLe b a := by
    intro a b
    simp only [sortLe, Bool.or_eq_true, decide_eq_true_eq]
    exact le_total _ _
  exact (List.sorted_mergeSort htrans htotal lines).imp
    (fun hab => by simpa [sortLe] using hab)

/-- Witness for C10: a concrete all-non-empty file sorts without error. -/
theorem sortCmd_uniqueCmd_w :
    (([] : Row) ∉ [(["b", "5", "6"] : Row)]) ∧
    ∃ out, sortCmd [(["b", "5", "6"] : Row)] = .ok out ∧
      out.Perm [(["b", "5", "6"] : Row)] ∧
      out.Pairwise (fun r s => (r.headD ("")).toLower ≤ (s.headD ("")).toLower) :=
  ⟨by simp, sortCmd_uniqueCmd_spec.1 [["b", "5", "6"]] (by simp)⟩

/-! ## C9: get_unique_filename returns the first free index -/

/-- Running `get_unique_filename` from index `start` with a free index at
`start + k` terminates within `k + 1` iterations on the first free index at
or after `start`. -/
theorem guf_from (ex : String → Bool) (pfx : String) :
    ∀ k start : ℕ, ex (filenameAt pfx (start + k)) = false →
    ∃ n, get_unique_filename ex pfx (k + 1) start = some (filenameAt pfx n) ∧
      start ≤ n ∧ ex (filenameAt pfx n) = false ∧
      ∀ m, start ≤ m → m < n → ex (filenameAt pfx m) = true := by
  intro k
  induction k with
  | zero =>
    intro start h
    rw [Nat.add_zero] at h
    exact ⟨start, by simp [get_unique_filename, h], le_refl _, h,
      fun m hm1 hm2 => absurd (lt_of_le_of_lt hm1 hm2) (lt_irrefl _)⟩
  | succ k ih =>
    intro start h
    cases hex : ex (filenameAt pfx start) with
    | false =>
      exact ⟨start, by simp [get_unique_filename, hex], le_refl _, hex,
        fun m hm1 hm2 => absurd (lt_of_le_of_lt hm1 hm2) (lt_irrefl _)⟩
    | true =>
      obtain ⟨n, hrun, hge, hfree, hmin⟩ :=
        ih (start + 1) (by rw [show start + 1 + k = start + (k + 1) by omega]; exact h)
      refine ⟨n, by simp [get_unique_filename, hex]; exact hrun,
        le_trans (Nat.le_succ start) hge, hfree, ?_⟩
      intro m hm1 hm2
      rcases Nat.eq_or_lt_of_le hm1 with rfl | h'
      · exact hex
      · exact hmin m h' hm2

/-- Claim C9 (confirmed): provided some index for the prefix is free (true
of any finite filesystem), `get_unique_filename` terminates and returns a
path that does not exist at that moment, built from the smallest
non-negative index whose path does not exist; scan and filter-mode results
are opened for writing at exactly that returned path, hence never at the
path of an existing file. -/
theorem get_unique_filename_fresh (ex : String → Bool) (pfx : String) (k : ℕ)
    (hk : ex (filenameAt pfx k) = false) :
    ∃ fuel n, get_unique_filename ex pfx fuel 0 = some (filenameAt pfx n) ∧
      ex (filenameAt pfx n) = false ∧
      ∀ m < n, ex (filenameAt pfx m) = true := by
  obtain ⟨n, hrun, -, hfree, hmin⟩ := guf_from ex pfx k 0 (by simpa using hk)
  exact ⟨k + 1, n, hrun, hfree, fun m hm => hmin m (Nat.zero_le m) hm⟩

/-- Witness for C9 on the empty filesystem: index 0 is chosen. -/
theorem get_unique_filename_fresh_w :
    ((fun _ : String => false) (filenameAt ("locations") 0) = false) ∧
    ∃ fuel n,
      get_unique_filename (fun _ => false) ("locations") fuel 0 =
        some (filenameAt ("locations") n) ∧
      (fun _ : String => false) (filenameAt ("locations") n) = false ∧
      ∀ m < n, (fun _ : String => false) (filenameAt ("locations") m) = true :=
  ⟨rfl, get_unique_filename_fresh (fun _ => false) ("locations") 0 rfl⟩

/-! ## C4: the per-cell retry state machine -/

/-- The retry loop makes at most `left` more iterations. -/
theorem retryFrom_iter (o : ℕ → AttemptOutcome) :
    ∀ left attempt reloads,
      (retryFrom o left attempt reloads).iterations ≤ attempt + left := by
  intro left
  induction left with
  | zero => intro a rl; simp [retryFrom]
  | succ left ih =>
    intro a rl
    cases h : o a with
    | exc =>
      have := ih (a + 1) (rl + 1)
      simp only [retryFrom, h]
      omega
    | pointer => simp [retryFrom, h] <;> omega
    | ok c => simp [retryFrom, h] <;> omega

/-- The failure counter grows from `attempt` by at most `left`. -/
theorem retryFrom_fail_le (o : ℕ → AttemptOutcome) :
    ∀ left attempt reloads,
      (retryFrom o left attempt reloads).failures ≤ attempt + left := by
  intro left
  induction left with
  | zero => intro a rl; simp [retryFrom]
  | succ left ih =>
    intro a rl
    cases h : o a with
    | exc =>
      have := ih (a + 1) (rl + 1)
      simp only [retryFrom, h]
      omega
    | pointer => simp [retryFrom, h] <;> omega
    | ok c => simp [retryFrom, h] <;> omega

/-- Each failed attempt performs exactly one `load_browser` page reload:
the reload counter advances in lockstep with the failure counter. -/
theorem retryFrom_reloads (o : ℕ → AttemptOutcome) :
    ∀ left attempt reloads,
      (retryFrom o left attempt reloads).reloads + attempt =
        reloads + (retryFrom o left attempt reloads).failures := by
  intro left
  induction left with
  | zero => intro a rl; simp [retryFrom]
  | succ left ih =>
    intro a rl
    cases h : o a with
    | exc =>
      have := ih (a + 1) (rl + 1)
      simp only [retryFrom, h]
      omega
    | pointer => simp [retryFrom, h]
    | ok c => simp [retryFrom, h]

/-- A successful outcome leaves the failure counter strictly below the
retry budget: exhausting all retries yields no coordinates. -/
theorem retryFrom_coords_fail (o : ℕ → AttemptOutcome) :
    ∀ left attempt reloads c,
      (retryFrom o left attempt reloads).coords = some c →
      (retryFrom o left attempt reloads).failures + 1 ≤ attempt + left := by
  intro left
  induction left with
  | zero => intro a rl c h; simp [retryFrom] at h
  | succ left ih =>
    intro a rl c h
    cases ho : o a with
    | exc =>
      simp only [retryFrom, ho] at h ⊢
      have := ih (a + 1) (rl + 1) c h
      omega
    | pointer => simp [retryFrom, ho] at h
    | ok c2 => simp [retryFrom, ho] <;> omega

/-- Claim C4 (confirmed): in scan mode each spiral cell is attempted at
most 3 times; each failed attempt does one page reload; after the third
consecutive failure the cell is skipped with no CSV row; a cell whose
interaction succeeds and whose resolved address is non-empty contributes
exactly the one row `[address, coords[0], coords[1]]`. -/
theorem scan_cell_spec (env : CellEnv) :
    (retryLoop env.attempts).iterations ≤ 3 ∧
    (retryLoop env.attempts).failures ≤ 3 ∧
    (retryLoop env.attempts).reloads = (retryLoop env.attempts).failures ∧
    ((retryLoop env.attempts).failures = 3 → processCell env = []) ∧
    ((retryLoop env.attempts).coords = none → processCell env = []) ∧
    ∀ c a, (retryLoop env.attempts).coords = some c →
      resolveAddress env.modal env.main = some a → a ≠ "" →
      processCell env = [[a, c.1, c.2]] := by
  have h1 := retryFrom_iter env.attempts 3 0 0
  have h2 := retryFrom_fail_le env.attempts 3 0 0
  have h3 := retryFrom_reloads env.attempts 3 0 0
  refine ⟨by simpa [retryLoop] using h1, by simpa [retryLoop] using h2,
    by simp only [retryLoop]; omega, ?_, ?_, ?_⟩
  · intro hf
    cases hc : (retryLoop env.attempts).coords with
    | none => simp [processCell, hc]
    | some c =>
      have h4 := retryFrom_coords_fail env.attempts 3 0 0 c
        (by simpa [retryLoop] using hc)
      rw [retryLoop] at hf
      omega
  · intro hc
    simp [processCell, hc]
  · intro c a hc ha hne
    simp [processCell, hc, ha, hne]

/-- Witness for C4: a cell that succeeds on its first attempt with a
non-empty modal address contributes exactly one row. -/
theorem scan_cell_spec_w :
    (retryLoop (fun _ => AttemptOutcome.ok ("1.0", "2.0"))).coords = some ("1.0", "2.0") ∧
    resolveAddress (some ("10 Main St")) MainOutcome.notVisible = some ("10 Main St") ∧
    processCell ⟨fun _ => AttemptOutcome.ok ("1.0", "2.0"), some ("10 Main St"),
        MainOutcome.notVisible⟩ =
      [["10 Main St", "1.0", "2.0"]] :=
  ⟨rfl, rfl,
    (scan_cell_spec _).2.2.2.2.2 ("1.0", "2.0") ("10 Main St") rfl rfl (by decide)⟩

/-! ## C3: capture_location cannot succeed and does not catch failures -/

/-- Claim C3 (code_bug): `capture_location` never returns 1 — even when
every browser step succeeds it raises `NameError` at
`page.click(img_selector, ..)` because `img_selector` is undefined — and
its only handler is `except KeyboardInterrupt`, so that `NameError` (like
any `PlaywrightTimeoutError`) propagates out of `capture_location` into
`find_images`' `future.result()` instead of being caught and reported as
the return value 0. -/
theorem capture_location_spec (location : Row) (env : CaptureEnv) :
    capture_location location env ≠ .ok 1 ∧
    (env.goto = none → env.waitCanvas = none → env.waitMainImg = none →
      capture_location location env = .error .nameError) := by
  obtain ⟨g, c, m⟩ := env
  constructor
  · intro h
    rcases g with - | e
    · rcases c with - | e
      · rcases m with - | e
        · simp [capture_location] at h
        · cases e <;> simp [capture_location] at h
      · cases e <;> simp [capture_location] at h
    · cases e <;> simp [capture_location] at h
  · intro hg hc hm
    simp only at hg hc hm
    subst hg hc hm
    rfl

/-- Witness for C3: with every page step succeeding, the function raises
`NameError` rather than returning 1. -/
theorem capture_location_spec_w :
    capture_location ["10 Main St", "1.0", "2.0"] ⟨none, none, none⟩ =
      .error .nameError ∧
    capture_location ["10 Main St", "1.0", "2.0"] ⟨none, none, none⟩ ≠ .ok 1 :=
  ⟨(capture_location_spec ["10 Main St", "1.0", "2.0"] ⟨none, none, none⟩).2 rfl rfl rfl,
    (capture_location_spec ["10 Main St", "1.0", "2.0"] ⟨none, none, none⟩).1⟩

/-! ## C1 and C8: the spiral generator -/

/-- Unfolding equation for one step of the inner segment loop. -/
theorem runSegment_succ (x_min x_max y_min y_max step dx dy : ℤ) (n : ℕ) (x y : ℤ) :
    runSegment x_min x_max y_min y_max step dx dy (n + 1) x y =
      if x + dx * step < x_min ∨ x + dx * step > x_max ∨
          y + dy * step < y_min ∨ y + dy * step > y_max then ([], none)
      else if (dx > 0 ∧ x + dx * step ≥ x_max) ∨ (dx < 0 ∧ x + dx * step ≤ x_min) ∨
              (dy > 0 ∧ y + dy * step ≥ y_max) ∨ (dy < 0 ∧ y + dy * step ≤ y_min) then
        ([(x + dx * step, y + dy * step)], none)
      else
        ((x + dx * step, y + dy * step) ::
            (runSegment x_min x_max y_min y_max step dx dy n
              (x + dx * step) (y + dy * step)).1,
          (runSegment x_min x_max y_min y_max step dx dy n
            (x + dx * step) (y + dy * step)).2) := rfl

/-- The points yielded by a segment run are an initial prefix of the whole
segment, and the run completes exactly when that prefix is the whole
segment, ending at the expected final position. -/
theorem runSegment_shape (x_min x_max y_min y_max step dx dy : ℤ) :
    ∀ (n : ℕ) (x y : ℤ), ∃ k ≤ n,
      (runSegment x_min x_max y_min y_max step dx dy n x y).1 =
        (List.range k).map
          (fun i : ℕ => (x + dx * step * ((i : ℤ) + 1), y + dy * step * ((i : ℤ) + 1))) ∧
      ∀ p, (runSegment x_min x_max y_min y_max step dx dy n x y).2 = some p →
        k = n ∧ p.1 = x + dx * step * n ∧ p.2 = y + dy * step * n := by
  intro n
  induction n with
  | zero =>
    intro x y
    refine ⟨0, le_refl _, by simp [runSegment], ?_⟩
    intro p hp
    simp only [runSegment, Option.some.injEq] at hp
    refine ⟨rfl, ?_, ?_⟩ <;> simp [← hp] <;> ring
  | succ n ih =>
    intro x y
    rw [runSegment_succ]
    by_cases h1 : x + dx * step < x_min ∨ x + dx * step > x_max ∨
        y + dy * step < y_min ∨ y + dy * step > y_max
    · rw [if_pos h1]
      exact ⟨0, Nat.zero_le _, by simp, fun p hp => by simp at hp⟩
    rw [if_neg h1]
    by_cases h2 : (dx > 0 ∧ x + dx * step ≥ x_max) ∨ (dx < 0 ∧ x + dx * step ≤ x_min) ∨
        (dy > 0 ∧ y + dy * step ≥ y_max) ∨ (dy < 0 ∧ y + dy * step ≤ y_min)
    · rw [if_pos h2]
      refine ⟨1, by omega, ?_, fun p hp => by simp at hp⟩
      have hr1 : List.range 1 = [0] := by decide
      rw [hr1, List.map_cons, List.map_nil]
      simp only [Nat.cast_zero, List.cons.injEq, and_true, Prod.mk.injEq]
      constructor <;> ring
    rw [if_neg h2]
    obtain ⟨k, hk, hlist, hfin⟩ := ih (x + dx * step) (y + dy * step)
    refine ⟨k + 1, Nat.succ_le_succ hk, ?_, ?_⟩
    · rw [List.range_succ_eq_map, List.map_cons, List.map_map, hlist]
      simp only [List.cons.injEq]
      constructor
      · simp only [Nat.cast_zero, Prod.mk.injEq]
        constructor <;> ring
      · apply List.map_congr_left
        intro i hi
        simp only [Function.comp_apply, Nat.cast_succ, Prod.mk.injEq]
        constructor <;> ring
    · intro p hp
      obtain ⟨hkn, hp1, hp2⟩ := hfin p hp
      refine ⟨by omega, ?_, ?_⟩
      · rw [hp1]; push_cast; ring
      · rw [hp2]; push_cast; ring

/-- Every point yielded during a segment run lies inside the bounding box
(the strict-exit check runs before each yield). -/
theorem runSegment_mem_box (x_min x_max y_min y_max step dx dy : ℤ) :
    ∀ (n : ℕ) (x y : ℤ) (p : ℤ × ℤ),
      p ∈ (runSegment x_min x_max y_min y_max step dx dy n x y).1 →
      x_min ≤ p.1 ∧ p.1 ≤ x_max ∧ y_min ≤ p.2 ∧ p.2 ≤ y_max := by
  intro n
  induction n with
  | zero => intro x y p hp; simp [runSegment] at hp
  | succ n ih =>
    intro x y p hp
    rw [runSegment_succ] at hp
    by_cases h1 : x + dx * step < x_min ∨ x + dx * step > x_max ∨
        y + dy * step < y_min ∨ y + dy * step > y_max
    · rw [if_pos h1] at hp
      simp at hp
    rw [if_neg h1] at hp
    push_neg at h1
    by_cases h2 : (dx > 0 ∧ x + dx * step ≥ x_max) ∨ (dx < 0 ∧ x + dx * step ≤ x_min) ∨
        (dy > 0 ∧ y + dy * step ≥ y_max) ∨ (dy < 0 ∧ y + dy * step ≤ y_min)
    · rw [if_pos h2] at hp
      simp only [List.mem_singleton] at hp
      subst hp
      exact ⟨h1.1, h1.2.1, h1.2.2.1, h1.2.2.2⟩
    rw [if_neg h2] at hp
    simp only [List.mem_cons] at hp
    rcases hp with rfl | hp
    · exact ⟨h1.1, h1.2.1, h1.2.2.1, h1.2.2.2⟩
    · exact ih _ _ p hp

/-- A segment of length `n ≥ 1` that completes keeps both its first and its
last position inside the box, so for an axis direction the box must span at
least `(n - 1) * step` along the moving axis. -/
theorem runSegment_complete_dim (x_min x_max y_min y_max step dx dy : ℤ)
    (hd : (dx, dy) ∈ directions) (n : ℕ) (hn : 1 ≤ n) (x y : ℤ) (p : ℤ × ℤ)
    (hp : (runSegment x_min x_max y_min y_max step dx dy n x y).2 = some p) :
    ((n : ℤ) - 1) * step ≤ x_max - x_min ∨ ((n : ℤ) - 1) * step ≤ y_max - y_min := by
  obtain ⟨k, -, hlist, hfin⟩ := runSegment_shape x_min x_max y_min y_max step dx dy n x y
  obtain ⟨hkn, -, -⟩ := hfin p hp
  subst hkn
  have hfirst : (x + dx * step * 1, y + dy * step * 1) ∈
      (runSegment x_min x_max y_min y_max step dx dy k x y).1 := by
    rw [hlist]
    refine List.mem_map.2 ⟨0, ?_, by norm_num⟩
    simpa using hn
  have hlast : (x + dx * step * k, y + dy * step * k) ∈
      (runSegment x_min x_max y_min y_max step dx dy k x y).1 := by
    rw [hlist]
    refine List.mem_map.2 ⟨k - 1, ?_, ?_⟩
    · simp only [List.mem_range]; omega
    · have : ((k - 1 : ℕ) : ℤ) + 1 = (k : ℤ) := by omega
      rw [this]
  have hb1 := runSegment_mem_box x_min x_max y_min y_max step dx dy k x y _ hfirst
  have hb2 := runSegment_mem_box x_min x_max y_min y_max step dx dy k x y _ hlast
  simp only [directions, List.mem_cons, List.mem_singleton, Prod.mk.injEq,
    List.not_mem_nil, or_false] at hd
  rcases hd with ⟨rfl, rfl⟩ | ⟨rfl, rfl⟩ | ⟨rfl, rfl⟩ | ⟨rfl, rfl⟩
  · left; simp only at hb1 hb2; nlinarith [hb1.1, hb2.2.1]
  · right; simp only at hb1 hb2; nlinarith [hb1.2.2.1, hb2.2.2.2]
  · left; simp only at hb1 hb2; nlinarith [hb1.2.1, hb2.1]
  · right; simp only at hb1 hb2; nlinarith [hb1.2.2.2, hb2.2.2.1]

/-! Closed forms for the unit-spiral segments. -/

theorem segLen_val0 (a : ℕ) : segLen (4 * a) = 2 * a + 1 := by
  simp only [segLen]; omega

theorem segLen_val1 (a : ℕ) : segLen (4 * a + 1) = 2 * a + 1 := by
  simp only [segLen]; omega

theorem segLen_val2 (a : ℕ) : segLen (4 * a + 2) = 2 * a + 2 := by
  simp only [segLen]; omega

theorem segLen_val3 (a : ℕ) : segLen (4 * a + 3) = 2 * a + 2 := by
  simp only [segLen]; omega

theorem segDir_val0 (a : ℕ) : segDir (4 * a) = (1, 0) := by
  have h : (4 * a) % 4 = 0 := by omega
  rw [segDir, h]; rfl

theorem segDir_val1 (a : ℕ) : segDir (4 * a + 1) = (0, 1) := by
  have h : (4 * a + 1) % 4 = 1 := by omega
  rw [segDir, h]; rfl

theorem segDir_val2 (a : ℕ) : segDir (4 * a + 2) = (-1, 0) := by
  have h : (4 * a + 2) % 4 = 2 := by omega
  rw [segDir, h]; rfl

theorem segDir_val3 (a : ℕ) : segDir (4 * a + 3) = (0, -1) := by
  have h : (4 * a + 3) % 4 = 3 := by omega
  rw [segDir, h]; rfl

theorem segStart_vals (a : ℕ) :
    segStart (4 * a) = (-(a : ℤ), -(a : ℤ)) ∧
    segStart (4 * a + 1) = ((a : ℤ) + 1, -(a : ℤ)) ∧
    segStart (4 * a + 2) = ((a : ℤ) + 1, (a : ℤ) + 1) ∧
    segStart (4 * a + 3) = (-((a : ℤ) + 1), (a : ℤ) + 1) := by
  induction a with
  | zero =>
    refine ⟨by norm_num [segStart], ?_, ?_, ?_⟩ <;>
      norm_num [segStart, segLen_val0 0, segLen_val1 0, segLen_val2 0,
        segDir_val0 0, segDir_val1 0, segDir_val2 0, segLen, segDir, directions]
  | succ a ih =>
    obtain ⟨-, -, -, h3⟩ := ih
    have q0 : segStart (4 * (a + 1)) = (-((a : ℤ) + 1), -((a : ℤ) + 1)) := by
      have e : 4 * (a + 1) = (4 * a + 3) + 1 := by ring
      rw [e, segStart, h3, segLen_val3 a, segDir_val3 a]
      simp only [Prod.mk.injEq]
      push_cast
      constructor <;> ring
    have q1 : segStart (4 * (a + 1) + 1) = (((a : ℤ) + 1) + 1, -((a : ℤ) + 1)) := by
      rw [segStart, q0, segLen_val0 (a + 1), segDir_val0 (a + 1)]
      simp only [Prod.mk.injEq]
      push_cast
      constructor <;> ring
    have q2 : segStart (4 * (a + 1) + 2) = (((a : ℤ) + 1) + 1, ((a : ℤ) + 1) + 1) := by
      have e : 4 * (a + 1) + 2 = (4 * (a + 1) + 1) + 1 := by ring
      rw [e, segStart, q1, segLen_val1 (a + 1), segDir_val1 (a + 1)]
      simp only [Prod.mk.injEq]
      push_cast
      constructor <;> ring
    have q3 : segStart (4 * (a + 1) + 3) = (-(((a : ℤ) + 1) + 1), ((a : ℤ) + 1) + 1) := by
      have e : 4 * (a + 1) + 3 = (4 * (a + 1) + 2) + 1 := by ring
      rw [e, segStart, q2, segLen_val2 (a + 1), segDir_val2 (a + 1)]
      simp only [Prod.mk.injEq]
      push_cast
      constructor <;> ring
    refine ⟨?_, ?_, ?_, ?_⟩ <;> push_cast <;>
      [exact q0; exact q1; exact q2; exact q3]

theorem segPoint_val0 (a i : ℕ) :
    segPoint (4 * a) i = (-(a : ℤ) + ((i : ℤ) + 1), -(a : ℤ)) := by
  rw [segPoint, (segStart_vals a).1, segDir_val0 a]
  simp only [Prod.mk.injEq]
  constructor <;> ring

theorem segPoint_val1 (a i : ℕ) :
    segPoint (4 * a + 1) i = ((a : ℤ) + 1, -(a : ℤ) + ((i : ℤ) + 1)) := by
  rw [segPoint, (segStart_vals a).2.1, segDir_val1 a]
  simp only [Prod.mk.injEq]
  constructor <;> ring

theorem segPoint_val2 (a i : ℕ) :
    segPoint (4 * a + 2) i = ((a : ℤ) + 1 - ((i : ℤ) + 1), (a : ℤ) + 1) := by
  rw [segPoint, (segStart_vals a).2.2.1, segDir_val2 a]
  simp only [Prod.mk.injEq]
  constructor <;> ring

theorem segPoint_val3 (a i : ℕ) :
    segPoint (4 * a + 3) i = (-((a : ℤ) + 1), (a : ℤ) + 1 - ((i : ℤ) + 1)) := by
  rw [segPoint, (segStart_vals a).2.2.2, segDir_val3 a]
  simp only [Prod.mk.injEq]
  constructor <;> ring

/-- Distinct in-range (segment, offset) pairs give distinct unit-spiral
points: the square spiral never revisits a point. -/
theorem segPoint_inj {j i j' i' : ℕ} (hi : i < segLen j) (hi' : i' < segLen j')
    (heq : segPoint j i = segPoint j' i') : j = j' ∧ i = i' := by
  obtain ⟨a, r, hr, rfl⟩ : ∃ a r, r < 4 ∧ j = 4 * a + r :=
    ⟨j / 4, j % 4, Nat.mod_lt _ (by norm_num), by omega⟩
  obtain ⟨b, r', hr', rfl⟩ : ∃ b r', r' < 4 ∧ j' = 4 * b + r' :=
    ⟨j' / 4, j' % 4, Nat.mod_lt _ (by norm_num), by omega⟩
  interval_cases r <;> interval_cases r' <;>
    simp only [Nat.add_zero, segPoint_val0, segPoint_val1, segPoint_val2,
      segPoint_val3, segLen_val0, segLen_val1, segLen_val2, segLen_val3,
      Prod.mk.injEq] at hi hi' heq <;>
    (obtain ⟨e1, e2⟩ := heq; constructor <;> omega)

/-- No unit-spiral segment point coincides with the center. -/
theorem segPoint_ne_center {j i : ℕ} (hi : i < segLen j) :
    segPoint j i ≠ (0, 0) := by
  intro heq
  obtain ⟨a, r, hr, rfl⟩ : ∃ a r, r < 4 ∧ j = 4 * a + r :=
    ⟨j / 4, j % 4, Nat.mod_lt _ (by norm_num), by omega⟩
  interval_cases r <;>
    simp only [Nat.add_zero, segPoint_val0, segPoint_val1, segPoint_val2,
      segPoint_val3, segLen_val0, segLen_val1, segLen_val2, segLen_val3,
      Prod.mk.injEq] at hi heq <;>
    (obtain ⟨e1, e2⟩ := heq; omega)

/-- Centering and scaling by a nonzero step is injective. -/
theorem pt_inj {s : ℤ} (hs : s ≠ 0) {cx cy : ℤ} {p q : ℤ × ℤ}
    (h : (cx + s * p.1, cy + s * p.2) = (cx + s * q.1, cy + s * q.2)) : p = q := by
  simp only [Prod.mk.injEq] at h
  obtain ⟨h1, h2⟩ := h
  exact Prod.ext (mul_left_cancel₀ hs (by linarith)) (mul_left_cancel₀ hs (by linarith))

theorem mem_segPts {cx cy s : ℤ} {j m : ℕ} {p : ℤ × ℤ}
    (h : p ∈ segPts cx cy s j m) :
    ∃ i < m, p = (cx + s * (segPoint j i).1, cy + s * (segPoint j i).2) := by
  simp only [segPts, List.mem_map, List.mem_range] at h
  obtain ⟨i, hi, rfl⟩ := h
  exact ⟨i, hi, rfl⟩

theorem segPts_nodup (cx cy s : ℤ) (hs : s ≠ 0) (j m : ℕ) (hm : m ≤ segLen j) :
    (segPts cx cy s j m).Nodup := by
  apply List.Nodup.map_on ?_ (List.nodup_range m)
  intro i hi i' hi' hf
  simp only [List.mem_range] at hi hi'
  have hpt : segPoint j i = segPoint j i' := pt_inj hs hf
  exact (segPoint_inj (lt_of_lt_of_le hi hm) (lt_of_lt_of_le hi' hm) hpt).2

theorem mem_spanPoints {cx cy s : ℤ} {j0 jk ik : ℕ} (hik : ik ≤ segLen jk)
    {p : ℤ × ℤ} (hp : p ∈ spanPoints cx cy s j0 jk ik) :
    ∃ j i, i < segLen j ∧
      p = (cx + s * (segPoint j i).1, cy + s * (segPoint j i).2) := by
  rw [spanPoints, List.mem_append] at hp
  rcases hp with hp | hp
  · obtain ⟨j, hj, hpj⟩ := List.mem_flatMap.1 hp
    obtain ⟨i, hi, rfl⟩ := mem_segPts hpj
    exact ⟨j, i, hi, rfl⟩
  · obtain ⟨i, hi, rfl⟩ := mem_segPts hp
    exact ⟨jk, i, lt_of_lt_of_le hi hik, rfl⟩

/-- The yielded points of any truncated span of consecutive spiral segments
are pairwise distinct. -/
theorem spanPoints_nodup (cx cy s : ℤ) (hs : s ≠ 0) (j0 jk ik : ℕ)
    (hik : ik ≤ segLen jk) : (spanPoints cx cy s j0 jk ik).Nodup := by
  rw [spanPoints]
  apply List.Nodup.append
  · rw [List.nodup_flatMap]
    refine ⟨fun j hj => segPts_nodup cx cy s hs j (segLen j) (le_refl _), ?_⟩
    refine List.Pairwise.imp ?_ (List.nodup_range' j0 (jk - j0))
    intro j j' hne p hp hp'
    obtain ⟨i, hi, rfl⟩ := mem_segPts hp
    obtain ⟨i', hi', heq⟩ := mem_segPts hp'
    exact hne (segPoint_inj hi hi' (pt_inj hs heq)).1
  · exact segPts_nodup cx cy s hs jk ik hik
  · intro p hp hp'
    obtain ⟨j, hj, hpj⟩ := List.mem_flatMap.1 hp
    obtain ⟨i, hi, rfl⟩ := mem_segPts hpj
    obtain ⟨i', hi', heq⟩ := mem_segPts hp'
    have hjlt : j < jk := by
      have hmem := List.mem_range'_1.1 hj
      omega
    have := (segPoint_inj hi (lt_of_lt_of_le hi' hik) (pt_inj hs heq)).1
    omega

/-- Rewriting a raw segment-run listing as `segPts`. -/
theorem segPts_eq_run (cx cy s : ℤ) (j k : ℕ) :
    (List.range k).map (fun i : ℕ =>
      ((cx + s * (segStart j).1) + (segDir j).1 * s * ((i : ℤ) + 1),
       (cy + s * (segStart j).2) + (segDir j).2 * s * ((i : ℤ) + 1))) =
    segPts cx cy s j k := by
  rw [segPts]
  apply List.map_congr_left
  intro i hi
  rw [segPoint]
  simp only [Prod.mk.injEq]
  constructor <;> ring

/-- A completed segment run ends at the start of the next segment. -/
theorem segStart_succ_pt (cx cy s : ℤ) (j : ℕ) :
    ((cx + s * (segStart j).1) + (segDir j).1 * s * ((segLen j : ℕ) : ℤ),
     (cy + s * (segStart j).2) + (segDir j).2 * s * ((segLen j : ℕ) : ℤ)) =
    (cx + s * (segStart (j + 1)).1, cy + s * (segStart (j + 1)).2) := by
  rw [segStart]
  simp only [Prod.mk.injEq]
  constructor <;> ring

theorem segLen_two_mul (a : ℕ) : segLen (2 * a) = a + 1 := by
  simp only [segLen]; omega

theorem segLen_two_mul_add_one (a : ℕ) : segLen (2 * a + 1) = a + 1 := by
  simp only [segLen]; omega

/-- Gluing the two full segments of one loop iteration onto a span. -/
theorem spanPoints_cons2 (cx cy s : ℤ) (a jk ik : ℕ) (h : 2 * (a + 1) ≤ jk) :
    segPts cx cy s (2 * a) (segLen (2 * a)) ++
      (segPts cx cy s (2 * a + 1) (segLen (2 * a + 1)) ++
        spanPoints cx cy s (2 * (a + 1)) jk ik) =
    spanPoints cx cy s (2 * a) jk ik := by
  rw [spanPoints, spanPoints]
  have e1 : jk - 2 * a = ((jk - 2 * (a + 1)) + 1) + 1 := by omega
  rw [e1, List.range'_succ, List.range'_succ]
  have e2 : 2 * a + 1 + 1 = 2 * (a + 1) := by ring
  rw [e2]
  simp only [List.flatMap_cons, List.append_assoc]

theorem spanPoints_self (cx cy s : ℤ) (j k : ℕ) :
    segPts cx cy s j k = spanPoints cx cy s j j k := by
  rw [spanPoints]
  simp

theorem spanPoints_one (cx cy s : ℤ) (a k : ℕ) :
    segPts cx cy s (2 * a) (segLen (2 * a)) ++ segPts cx cy s (2 * a + 1) k =
    spanPoints cx cy s (2 * a) (2 * a + 1) k := by
  rw [spanPoints]
  have e1 : 2 * a + 1 - 2 * a = 1 := by omega
  rw [e1]
  simp [List.range'_succ]

/-- Simulation: a successful run of the outer loop started at the top of
loop iteration `a` (position at the start of segment `2a`, direction
`(2a) % 4`, segment length `a + 1`) yields exactly a truncated span of
consecutive spiral segments starting at segment `2a`. -/
theorem spiralLoop_span (x_min x_max y_min y_max s cx cy : ℤ) :
    ∀ (K a : ℕ) (pts : List (ℤ × ℤ)),
      spiralLoop x_min x_max y_min y_max s K
          (cx + s * (segStart (2 * a)).1) (cy + s * (segStart (2 * a)).2)
          ((2 * a) % 4) (a + 1) = some pts →
      ∃ jk ik, 2 * a ≤ jk ∧ ik ≤ segLen jk ∧
        pts = spanPoints cx cy s (2 * a) jk ik := by
  intro K
  induction K with
  | zero => intro a pts h; simp [spiralLoop] at h
  | succ K ih =>
    intro a pts h
    simp only [spiralLoop] at h
    have hd1 : directions.getD ((2 * a) % 4) ((0 : ℤ), (0 : ℤ)) = segDir (2 * a) := rfl
    rw [hd1] at h
    obtain ⟨k1, hk1, hlist1, hfin1⟩ := runSegment_shape x_min x_max y_min y_max s
      (segDir (2 * a)).1 (segDir (2 * a)).2 (a + 1)
      (cx + s * (segStart (2 * a)).1) (cy + s * (segStart (2 * a)).2)
    rcases h1 : runSegment x_min x_max y_min y_max s
        (segDir (2 * a)).1 (segDir (2 * a)).2 (a + 1)
        (cx + s * (segStart (2 * a)).1) (cy + s * (segStart (2 * a)).2) with ⟨l1, o1⟩
    rw [h1] at h hlist1 hfin1
    simp only at h hlist1 hfin1
    cases o1 with
    | none =>
      simp only [Option.some.injEq] at h
      subst h
      refine ⟨2 * a, k1, le_refl _, by rw [segLen_two_mul]; exact hk1, ?_⟩
      rw [hlist1, segPts_eq_run, spanPoints_self]
    | some p1 =>
      obtain ⟨hk1n, hp11, hp12⟩ := hfin1 p1 rfl
      subst hk1n
      have hp1eq : p1 = (cx + s * (segStart (2 * a + 1)).1,
          cy + s * (segStart (2 * a + 1)).2) := by
        rw [← segStart_succ_pt cx cy s (2 * a), segLen_two_mul]
        exact Prod.ext hp11 hp12
      rw [hp1eq] at h
      simp only at h
      have e1 : ((2 * a) % 4 + 1) % 4 = (2 * a + 1) % 4 := by omega
      rw [e1] at h
      have hd2 : directions.getD ((2 * a + 1) % 4) ((0 : ℤ), (0 : ℤ)) =
          segDir (2 * a + 1) := rfl
      rw [hd2] at h
      obtain ⟨k2, hk2, hlist2, hfin2⟩ := runSegment_shape x_min x_max y_min y_max s
        (segDir (2 * a + 1)).1 (segDir (2 * a + 1)).2 (a + 1)
        (cx + s * (segStart (2 * a + 1)).1) (cy + s * (segStart (2 * a + 1)).2)
      rcases h2 : runSegment x_min x_max y_min y_max s
          (segDir (2 * a + 1)).1 (segDir (2 * a + 1)).2 (a + 1)
          (cx + s * (segStart (2 * a + 1)).1)
          (cy + s * (segStart (2 * a + 1)).2) with ⟨l2, o2⟩
      rw [h2] at h hlist2 hfin2
      simp only at h hlist2 hfin2
      have hl1seg : l1 = segPts cx cy s (2 * a) (segLen (2 * a)) := by
        rw [hlist1, segPts_eq_run, segLen_two_mul]
      cases o2 with
      | none =>
        simp only [Option.some.injEq] at h
        subst h
        refine ⟨2 * a + 1, k2, by omega,
          by rw [segLen_two_mul_add_one]; exact hk2, ?_⟩
        rw [hl1seg, hlist2, segPts_eq_run, spanPoints_one]
      | some p2 =>
        obtain ⟨hk2n, hp21, hp22⟩ := hfin2 p2 rfl
        subst hk2n
        have hp2eq : p2 = (cx + s * (segStart (2 * (a + 1))).1,
            cy + s * (segStart (2 * (a + 1))).2) := by
          have e2 : 2 * (a + 1) = (2 * a + 1) + 1 := by ring
          rw [e2, ← segStart_succ_pt cx cy s (2 * a + 1), segLen_two_mul_add_one]
          exact Prod.ext hp21 hp22
        rw [hp2eq] at h
        simp only at h
        have e3 : ((2 * a + 1) % 4 + 1) % 4 = (2 * (a + 1)) % 4 := by omega
        rw [e3] at h
        simp only [Option.map_eq_some'] at h
        obtain ⟨rest, hrest, hpts⟩ := h
        obtain ⟨jk, ik, hjk, hik, hspan⟩ := ih (a + 1) rest hrest
        refine ⟨jk, ik, by omega, hik, ?_⟩
        have hl2seg : l2 = segPts cx cy s (2 * a + 1) (segLen (2 * a + 1)) := by
          rw [hlist2, segPts_eq_run, segLen_two_mul_add_one]
        rw [← hpts, hspan, hl1seg, hl2seg, List.append_assoc]
        exact spanPoints_cons2 cx cy s a jk ik hjk

/-- Every point an outer-loop run yields lies inside the bounding box. -/
theorem spiralLoop_box (x_min x_max y_min y_max s : ℤ) :
    ∀ (K : ℕ) (x y : ℤ) (d L : ℕ) (pts : List (ℤ × ℤ)),
      spiralLoop x_min x_max y_min y_max s K x y d L = some pts →
      ∀ p ∈ pts, x_min ≤ p.1 ∧ p.1 ≤ x_max ∧ y_min ≤ p.2 ∧ p.2 ≤ y_max := by
  intro K
  induction K with
  | zero => intro x y d L pts h; simp [spiralLoop] at h
  | succ K ih =>
    intro x y d L pts h p hp
    simp only [spiralLoop] at h
    rcases h1 : runSegment x_min x_max y_min y_max s
        (directions.getD d ((0 : ℤ), (0 : ℤ))).1
        (directions.getD d ((0 : ℤ), (0 : ℤ))).2 L x y with ⟨l1, o1⟩
    rw [h1] at h
    cases o1 with
    | none =>
      simp only [Option.some.injEq] at h
      subst h
      exact runSegment_mem_box _ _ _ _ _ _ _ L x y p (by rw [h1]; exact hp)
    | some p1 =>
      simp only at h
      rcases h2 : runSegment x_min x_max y_min y_max s
          (directions.getD ((d + 1) % 4) ((0 : ℤ), (0 : ℤ))).1
          (directions.getD ((d + 1) % 4) ((0 : ℤ), (0 : ℤ))).2 L p1.1 p1.2
        with ⟨l2, o2⟩
      rw [h2] at h
      cases o2 with
      | none =>
        simp only [Option.some.injEq] at h
        subst h
        rcases List.mem_append.1 hp with hp | hp
        · exact runSegment_mem_box _ _ _ _ _ _ _ L x y p (by rw [h1]; exact hp)
        · exact runSegment_mem_box _ _ _ _ _ _ _ L p1.1 p1.2 p (by rw [h2]; exact hp)
      | some p2 =>
        simp only [Option.map_eq_some'] at h
        obtain ⟨rest, hrest, hpts⟩ := h
        subst hpts
        rcases List.mem_append.1 hp with hp | hp
        · rcases List.mem_append.1 hp with hp | hp
          · exact runSegment_mem_box _ _ _ _ _ _ _ L x y p (by rw [h1]; exact hp)
          · exact runSegment_mem_box _ _ _ _ _ _ _ L p1.1 p1.2 p (by rw [h2]; exact hp)
        · exact ih _ _ _ _ _ hrest p hp

theorem getD_directions_mem {d : ℕ} (hd : d < 4) :
    directions.getD d ((0 : ℤ), (0 : ℤ)) ∈ directions := by
  interval_cases d <;> simp [directions]

/-- Unfolding one outer iteration when both of its segments complete. -/
theorem spiralLoop_eq_of_seg2 (x_min x_max y_min y_max s : ℤ) (fuel : ℕ)
    (x y : ℤ) (d L : ℕ) (l1 l2 : List (ℤ × ℤ)) (p1 p2 : ℤ × ℤ)
    (h1 : runSegment x_min x_max y_min y_max s
        (directions.getD d ((0 : ℤ), (0 : ℤ))).1
        (directions.getD d ((0 : ℤ), (0 : ℤ))).2 L x y = (l1, some p1))
    (h2 : runSegment x_min x_max y_min y_max s
        (directions.getD ((d + 1) % 4) ((0 : ℤ), (0 : ℤ))).1
        (directions.getD ((d + 1) % 4) ((0 : ℤ), (0 : ℤ))).2 L p1.1 p1.2 =
      (l2, some p2)) :
    spiralLoop x_min x_max y_min y_max s (fuel + 1) x y d L =
      (spiralLoop x_min x_max y_min y_max s fuel p2.1 p2.2
          (((d + 1) % 4 + 1) % 4) (L + 1)).map
        (fun rest => l1 ++ l2 ++ rest) := by
  simp only [spiralLoop, h1, h2]

/-- Termination: once the segment length (times the step) exceeds both box
dimensions no segment can run to completion, so the loop returns within the
remaining fuel. -/
theorem spiralLoop_some (x_min x_max y_min y_max s : ℤ) (hs : 1 ≤ s) :
    ∀ (K L : ℕ) (x y : ℤ) (d : ℕ), d < 4 → 1 ≤ L →
      x_max - x_min < ((L : ℤ) + (K : ℤ) - 1) * s →
      y_max - y_min < ((L : ℤ) + (K : ℤ) - 1) * s →
      ∃ pts, spiralLoop x_min x_max y_min y_max s (K + 1) x y d L = some pts := by
  intro K
  induction K with
  | zero =>
    intro L x y d hd hL hx hy
    rcases h1 : runSegment x_min x_max y_min y_max s
        (directions.getD d ((0 : ℤ), (0 : ℤ))).1
        (directions.getD d ((0 : ℤ), (0 : ℤ))).2 L x y with ⟨l1, o1⟩
    cases o1 with
    | none =>
      refine ⟨l1, ?_⟩
      simp only [spiralLoop, h1]
    | some p1 =>
      exfalso
      have hdim := runSegment_complete_dim x_min x_max y_min y_max s
        (directions.getD d ((0 : ℤ), (0 : ℤ))).1
        (directions.getD d ((0 : ℤ), (0 : ℤ))).2
        (getD_directions_mem hd) L hL x y p1 (by rw [h1])
      have e : ((L : ℤ) + (0 : ℕ) - 1) * s = ((L : ℤ) - 1) * s := by push_cast; ring
      rw [e] at hx hy
      rcases hdim with hdim | hdim <;> linarith
  | succ K ih =>
    intro L x y d hd hL hx hy
    rcases h1 : runSegment x_min x_max y_min y_max s
        (directions.getD d ((0 : ℤ), (0 : ℤ))).1
        (directions.getD d ((0 : ℤ), (0 : ℤ))).2 L x y with ⟨l1, o1⟩
    cases o1 with
    | none =>
      refine ⟨l1, ?_⟩
      simp only [spiralLoop, h1]
    | some p1 =>
      rcases h2 : runSegment x_min x_max y_min y_max s
          (directions.getD ((d + 1) % 4) ((0 : ℤ), (0 : ℤ))).1
          (directions.getD ((d + 1) % 4) ((0 : ℤ), (0 : ℤ))).2 L p1.1 p1.2
        with ⟨l2, o2⟩
      cases o2 with
      | none =>
        refine ⟨l1 ++ l2, ?_⟩
        simp only [spiralLoop, h1, h2]
      | some p2 =>
        have ex : x_max - x_min < (((L + 1 : ℕ) : ℤ) + (K : ℤ) - 1) * s := by
          have e : (((L + 1 : ℕ) : ℤ) + (K : ℤ) - 1) * s =
              ((L : ℤ) + ((K + 1 : ℕ) : ℤ) - 1) * s := by push_cast; ring
          rw [e]
          exact hx
        have ey : y_max - y_min < (((L + 1 : ℕ) : ℤ) + (K : ℤ) - 1) * s := by
          have e : (((L + 1 : ℕ) : ℤ) + (K : ℤ) - 1) * s =
              ((L : ℤ) + ((K + 1 : ℕ) : ℤ) - 1) * s := by push_cast; ring
          rw [e]
          exact hy
        obtain ⟨pts, hpts⟩ := ih (L + 1) p2.1 p2.2 (((d + 1) % 4 + 1) % 4)
          (by omega) (by omega) ex ey
        refine ⟨l1 ++ l2 ++ pts, ?_⟩
        rw [spiralLoop_eq_of_seg2 x_min x_max y_min y_max s (K + 1) x y d L
          l1 l2 p1 p2 h1 h2, hpts, Option.map_some']

/-- Claim C8 (confirmed): for every width, height and limits, and every
step ≥ 1, the spiral generator terminates — some finite fuel covers the
whole run, so only finitely many points are yielded before it returns. -/
theorem spiral_terminates (width height : ℤ) (limits : ℤ × ℤ) (step : ℤ)
    (hs : 1 ≤ step) :
    ∃ fuel pts, spiral fuel width height limits step = some pts := by
  set xd : ℤ := width - limits.1 - limits.1 with hxd
  set yd : ℤ := height - limits.2 - limits.2 with hyd
  set K : ℕ := xd.toNat + yd.toNat + 1 with hKdef
  have hKx : xd < (K : ℤ) := by rw [hKdef]; push_cast; omega
  have hKy : yd < (K : ℤ) := by rw [hKdef]; push_cast; omega
  have hKs : (K : ℤ) ≤ (K : ℤ) * step := le_mul_of_one_le_right (by positivity) hs
  have hx : xd < ((1 : ℤ) + (K : ℤ) - 1) * step := by
    have e : ((1 : ℤ) + (K : ℤ) - 1) * step = (K : ℤ) * step := by ring
    rw [e]
    linarith
  have hy : yd < ((1 : ℤ) + (K : ℤ) - 1) * step := by
    have e : ((1 : ℤ) + (K : ℤ) - 1) * step = (K : ℤ) * step := by ring
    rw [e]
    linarith
  obtain ⟨pts, h⟩ := spiralLoop_some limits.1 (width - limits.1) limits.2
    (height - limits.2) step hs K 1 (Int.fdiv width 2) (Int.fdiv height 2) 0
    (by norm_num) (le_refl 1) (by rw [hxd] at hx; exact hx) (by rw [hyd] at hy; exact hy)
  refine ⟨K + 1, (Int.fdiv width 2, Int.fdiv height 2) :: pts, ?_⟩
  simp only [spiral]
  rw [h, Option.map_some']

/-- Witness for C8 at a concrete input. -/
theorem spiral_terminates_w :
    1 ≤ (1 : ℤ) ∧ ∃ fuel pts, spiral fuel 10 10 (2, 3) 1 = some pts :=
  ⟨by norm_num, spiral_terminates 10 10 (2, 3) 1 (by norm_num)⟩

/-- Claim C1 (corrected): under the claim's side conditions
(0 ≤ lx ≤ width // 2, 0 ≤ ly ≤ height // 2, step ≥ 1), every point the
spiral generator yields lies inside the bounding box
[lx, width - lx] × [ly, height - ly] and is reachable from the center
(width // 2, height // 2) by integer multiples of the step, and no point is
yielded twice.  (The completeness half of the original claim is false: the
generator stops at the first yielded point that touches the box boundary —
see the counterexample.) -/
theorem spiral_sound (width height lx ly step : ℤ) (fuel : ℕ)
    (pts : List (ℤ × ℤ)) (hlx0 : 0 ≤ lx) (hlx : lx ≤ Int.fdiv width 2)
    (hly0 : 0 ≤ ly) (hly : ly ≤ Int.fdiv height 2) (hs : 1 ≤ step)
    (h : spiral fuel width height (lx, ly) step = some pts) :
    pts.Nodup ∧
    ∀ p ∈ pts,
      (lx ≤ p.1 ∧ p.1 ≤ width - lx ∧ ly ≤ p.2 ∧ p.2 ≤ height - ly) ∧
      ∃ u v : ℤ, p.1 = Int.fdiv width 2 + step * u ∧
        p.2 = Int.fdiv height 2 + step * v := by
  have hs0 : step ≠ 0 := by omega
  simp only [spiral] at h
  obtain ⟨rest, hrest, hpts⟩ := Option.map_eq_some'.1 h
  subst hpts
  cases fuel with
  | zero => simp [spiralLoop] at hrest
  | succ K =>
    have hcall : spiralLoop lx (width - lx) ly (height - ly) step (K + 1)
        (Int.fdiv width 2 + step * (segStart (2 * 0)).1)
        (Int.fdiv height 2 + step * (segStart (2 * 0)).2)
        ((2 * 0) % 4) (0 + 1) = some rest := by
      simpa [segStart] using hrest
    obtain ⟨jk, ik, hjk, hik, hspan⟩ := spiralLoop_span lx (width - lx) ly
      (height - ly) step (Int.fdiv width 2) (Int.fdiv height 2) (K + 1) 0 rest hcall
    subst hspan
    have e1 : Int.fdiv width 2 = width / 2 := Int.fdiv_eq_ediv _ (by norm_num)
    have e2 : Int.fdiv height 2 = height / 2 := Int.fdiv_eq_ediv _ (by norm_num)
    constructor
    · rw [List.nodup_cons]
      refine ⟨?_, spanPoints_nodup _ _ _ hs0 _ _ _ hik⟩
      intro hc
      obtain ⟨j, i, hi, hEq⟩ := mem_spanPoints hik hc
      have hEq' : (Int.fdiv width 2 + step * (((0 : ℤ), (0 : ℤ)) : ℤ × ℤ).1,
          Int.fdiv height 2 + step * (((0 : ℤ), (0 : ℤ)) : ℤ × ℤ).2) =
          (Int.fdiv width 2 + step * (segPoint j i).1,
           Int.fdiv height 2 + step * (segPoint j i).2) := by
        simpa using hEq
      exact segPoint_ne_center hi (pt_inj hs0 hEq').symm
    · intro p hp
      rcases List.mem_cons.1 hp with rfl | hp
      · refine ⟨?_, 0, 0, by simp, by simp⟩
        have hcx2 : Int.fdiv width 2 ≤ width - lx := by
          rw [e1]
          rw [e1] at hlx
          omega
        have hcy2 : Int.fdiv height 2 ≤ height - ly := by
          rw [e2]
          rw [e2] at hly
          omega
        exact ⟨hlx, hcx2, hly, hcy2⟩
      · refine ⟨spiralLoop_box lx (width - lx) ly (height - ly) step (K + 1)
          _ _ _ _ _ hrest p hp, ?_⟩
        obtain ⟨j, i, hi, hEq⟩ := mem_spanPoints hik hp
        exact ⟨(segPoint j i).1, (segPoint j i).2, by rw [hEq], by rw [hEq]⟩

/-- Claim C1 counterexample: with width = height = 2, limits = [0, 0] and
step = 1 the center is (1, 1), the grid point (0, 0) lies inside the
bounding box [0, 2] × [0, 2] and is reachable from the center by integer
multiples of the step, yet the generator's full output is [(1, 1), (2, 1)]:
the spiral does not yield every reachable grid point of the box. -/
theorem spiral_not_complete :
    spiral 5 2 2 (0, 0) 1 = some [(1, 1), (2, 1)] ∧
    (0 ≤ (0 : ℤ) ∧ (0 : ℤ) ≤ Int.fdiv 2 2 ∧ 1 ≤ (1 : ℤ)) ∧
    ((0 : ℤ) = Int.fdiv 2 2 + 1 * (-1) ∧ (0 : ℤ) = Int.fdiv 2 2 + 1 * (-1)) ∧
    ((0 : ℤ) ≤ 0 ∧ (0 : ℤ) ≤ 2 - 0) ∧
    ((0 : ℤ), (0 : ℤ)) ∉ [((1 : ℤ), (1 : ℤ)), (2, 1)] := by
  exact ⟨by decide, by decide, by decide, by decide, by decide⟩

/-- Witness for C1 (amended) at the same concrete input. -/
theorem spiral_sound_w :
    ((0 : ℤ) ≤ 0 ∧ (0 : ℤ) ≤ Int.fdiv 2 2 ∧ 1 ≤ (1 : ℤ) ∧
      spiral 5 2 2 (0, 0) 1 = some [(1, 1), (2, 1)]) ∧
    ([((1 : ℤ), (1 : ℤ)), (2, 1)].Nodup ∧
      ∀ p ∈ [((1 : ℤ), (1 : ℤ)), (2, 1)],
        ((0 : ℤ) ≤ p.1 ∧ p.1 ≤ 2 - 0 ∧ (0 : ℤ) ≤ p.2 ∧ p.2 ≤ 2 - 0) ∧
        ∃ u v : ℤ, p.1 = Int.fdiv 2 2 + 1 * u ∧ p.2 = Int.fdiv 2 2 + 1 * v) :=
  ⟨⟨by decide, by decide, by decide, by decide⟩,
    spiral_sound 2 2 0 0 1 5 [(1, 1), (2, 1)] (by decide) (by decide)
      (by decide) (by decide) (by decide) (by decide)⟩

/-! ## C2: compute_zoom -/

theorem pyRound_eq_round {x : ℝ} (h : Int.fract x ≠ 1 / 2) :
    pyRound x = round x := by
  rw [pyRound, if_neg h]

theorem pyRound_half_bounds {x : ℝ} (h : Int.fract x = 1 / 2) :
    ⌊x⌋ ≤ pyRound x ∧ pyRound x ≤ ⌊x⌋ + 1 := by
  rw [pyRound, if_pos h]
  split_ifs <;> omega

theorem eq_floor_add_half {x : ℝ} (h : Int.fract x = 1 / 2) :
    x = (⌊x⌋ : ℝ) + 1 / 2 := by
  conv_lhs => rw [← Int.floor_add_fract x]
  rw [h]

theorem pyRound_le (x : ℝ) : (pyRound x : ℝ) ≤ x + 1 / 2 := by
  by_cases h : Int.fract x = 1 / 2
  · have hx := eq_floor_add_half h
    obtain ⟨-, h2⟩ := pyRound_half_bounds h
    have h2' : ((pyRound x : ℤ) : ℝ) ≤ ((⌊x⌋ + 1 : ℤ) : ℝ) := by exact_mod_cast h2
    push_cast at h2'
    linarith
  · rw [pyRound_eq_round h]
    have hb := abs_sub_round x
    rw [abs_le] at hb
    linarith [hb.1]

theorem le_pyRound (x : ℝ) : x - 1 / 2 ≤ (pyRound x : ℝ) := by
  by_cases h : Int.fract x = 1 / 2
  · have hx := eq_floor_add_half h
    obtain ⟨h1, -⟩ := pyRound_half_bounds h
    have h1' : ((⌊x⌋ : ℤ) : ℝ) ≤ ((pyRound x : ℤ) : ℝ) := by exact_mod_cast h1
    linarith
  · rw [pyRound_eq_round h]
    have hb := abs_sub_round x
    rw [abs_le] at hb
    linarith [hb.2]

/-- Round-half-to-even is monotone. -/
theorem pyRound_mono {x y : ℝ} (hxy : x ≤ y) : pyRound x ≤ pyRound y := by
  by_cases hx : Int.fract x = 1 / 2 <;> by_cases hy : Int.fract y = 1 / 2
  · rcases eq_or_lt_of_le hxy with rfl | hlt
    · exact le_refl _
    · have hfx := eq_floor_add_half hx
      have hfy := eq_floor_add_half hy
      have hfloor : ⌊x⌋ < ⌊y⌋ := by
        have hh : (⌊x⌋ : ℝ) < (⌊y⌋ : ℝ) := by linarith
        exact_mod_cast hh
      obtain ⟨-, h2⟩ := pyRound_half_bounds hx
      obtain ⟨h3, -⟩ := pyRound_half_bounds hy
      omega
  · have hfx := eq_floor_add_half hx
    have hrx : round x = ⌊x⌋ + 1 := by
      rw [round_eq]
      nth_rewrite 1 [hfx]
      rw [show (⌊x⌋ : ℝ) + 1 / 2 + 1 / 2 = ((⌊x⌋ + 1 : ℤ) : ℝ) by push_cast; ring,
        Int.floor_intCast]
    have hround : round x ≤ round y := by
      rw [round_eq, round_eq]
      exact Int.floor_mono (by linarith)
    rw [pyRound_eq_round hy]
    obtain ⟨-, h2⟩ := pyRound_half_bounds hx
    omega
  · have hlt : x < y := lt_of_le_of_ne hxy (fun he => hx (he ▸ hy))
    have hfy := eq_floor_add_half hy
    rw [pyRound_eq_round hx]
    obtain ⟨h3, -⟩ := pyRound_half_bounds hy
    have h4 : round x ≤ ⌊y⌋ := by
      rw [round_eq]
      have h5 : ⌊x + 1 / 2⌋ < ⌊y⌋ + 1 := Int.floor_lt.2 (by push_cast; linarith)
      omega
    omega
  · rw [pyRound_eq_round hx, pyRound_eq_round hy, round_eq, round_eq]
    exact Int.floor_mono (by linarith)

theorem compute_zoom_of_le (k : ℝ) (h : k * 1000 ≤ 71) : compute_zoom k = 21 := by
  simp only [compute_zoom]
  rw [if_pos h]

theorem compute_zoom_of_ge (k : ℝ) (h71 : ¬ k * 1000 ≤ 71)
    (h : k * 1000 ≥ 1164888) : compute_zoom k = 7 := by
  simp only [compute_zoom]
  rw [if_neg h71, if_pos h]

theorem compute_zoom_middle (k : ℝ) (h71 : ¬ k * 1000 ≤ 71)
    (h : ¬ k * 1000 ≥ 1164888) :
    compute_zoom k = pyRound (6 + Real.logb 2 (1165116 / (k * 1000))) := by
  simp only [compute_zoom]
  rw [if_neg h71, if_neg h]

theorem logb_ratio_pos {m : ℝ} (h71 : 71 < m) (h : m < 1164888) :
    0 < Real.logb 2 (1165116 / m) := by
  apply Real.logb_pos (by norm_num)
  rw [one_lt_div (by linarith)]
  linarith

theorem logb_ratio_lt {m : ℝ} (h71 : 71 < m) :
    Real.logb 2 (1165116 / m) < 29 / 2 := by
  have hm : (0 : ℝ) < m := by linarith
  have hsq : Real.logb 2 (((1165116 : ℝ) / m) ^ 2) < 29 := by
    rw [Real.logb_lt_iff_lt_rpow (by norm_num) (by positivity)]
    rw [show ((29 : ℝ)) = ((29 : ℕ) : ℝ) by norm_num, Real.rpow_natCast]
    have hb : (1165116 : ℝ) / m ≤ 1165116 / 71 :=
      div_le_div_of_nonneg_left (by norm_num) (by norm_num) (by linarith)
    calc ((1165116 : ℝ) / m) ^ 2 ≤ ((1165116 : ℝ) / 71) ^ 2 := by
          apply pow_le_pow_left (by positivity) hb
      _ < 2 ^ 29 := by norm_num
  rw [Real.logb_pow] at hsq
  push_cast at hsq
  linarith

theorem compute_zoom_middle_bounds {m : ℝ} (h71 : 71 < m) (h : m < 1164888) :
    6 ≤ pyRound (6 + Real.logb 2 (1165116 / m)) ∧
    pyRound (6 + Real.logb 2 (1165116 / m)) ≤ 20 := by
  have ht0 := logb_ratio_pos h71 h
  have ht1 := logb_ratio_lt h71
  constructor
  · have hb := le_pyRound (6 + Real.logb 2 (1165116 / m))
    have h5 : (5 : ℝ) < ((pyRound (6 + Real.logb 2 (1165116 / m)) : ℤ) : ℝ) := by
      linarith
    have h5' : (5 : ℤ) < pyRound (6 + Real.logb 2 (1165116 / m)) := by
      exact_mod_cast h5
    omega
  · have hb := pyRound_le (6 + Real.logb 2 (1165116 / m))
    have h21 : ((pyRound (6 + Real.logb 2 (1165116 / m)) : ℤ) : ℝ) < 21 := by
      linarith
    have h21' : pyRound (6 + Real.logb 2 (1165116 / m)) < 21 := by
      exact_mod_cast h21
    omega

/-- Claim C2 (corrected, amended): over the validated radius range
[0.01, 10000] km, `compute_zoom` returns an integer in [6, 21] (not
[7, 21]); it is monotonically non-increasing on radii below 1164.888 km,
and it returns the clamped value 7 for all radii of at least 1164.888 km —
at that clamp the zoom level rises from 6 back to 7, which is where the
original monotonicity claim fails. -/
theorem compute_zoom_range_mono :
    (∀ k : ℝ, 0.01 ≤ k → k ≤ 10000 →
      6 ≤ compute_zoom k ∧ compute_zoom k ≤ 21) ∧
    (∀ k1 k2 : ℝ, 0 < k1 → k1 ≤ k2 → k2 * 1000 < 1164888 →
      compute_zoom k2 ≤ compute_zoom k1) ∧
    (∀ k : ℝ, 1164888 ≤ k * 1000 → compute_zoom k = 7) := by
  refine ⟨fun k hk1 hk2 => ?_, fun k1 k2 hk1 hk12 hk2m => ?_, fun k hk => ?_⟩
  · by_cases hm1 : k * 1000 ≤ 71
    · rw [compute_zoom_of_le k hm1]
      norm_num
    · by_cases hm2 : k * 1000 ≥ 1164888
      · rw [compute_zoom_of_ge k hm1 hm2]
        norm_num
      · rw [compute_zoom_middle k hm1 hm2]
        have hb := compute_zoom_middle_bounds (not_le.1 hm1) (not_le.1 hm2)
        exact ⟨hb.1, by omega⟩
  · have hm12 : k1 * 1000 ≤ k2 * 1000 := by nlinarith
    by_cases h2a : k2 * 1000 ≤ 71
    · rw [compute_zoom_of_le k1 (le_trans hm12 h2a), compute_zoom_of_le k2 h2a]
    · by_cases h1a : k1 * 1000 ≤ 71
      · rw [compute_zoom_of_le k1 h1a,
          compute_zoom_middle k2 h2a (not_le.2 hk2m)]
        have hb := compute_zoom_middle_bounds (not_le.1 h2a) hk2m
        omega
      · rw [compute_zoom_middle k1 h1a (not_le.2 (lt_of_le_of_lt hm12 hk2m)),
          compute_zoom_middle k2 h2a (not_le.2 hk2m)]
        apply pyRound_mono
        have h71 : (71 : ℝ) < k1 * 1000 := not_le.1 h1a
        have hk2p : (0 : ℝ) < k2 := lt_of_lt_of_le hk1 hk12
        have hlog : Real.logb 2 (1165116 / (k2 * 1000)) ≤
            Real.logb 2 (1165116 / (k1 * 1000)) := by
          apply Real.logb_le_logb_of_le (by norm_num)
            (div_pos (by norm_num) (by positivity))
          exact div_le_div_of_nonneg_left (by norm_num) (by linarith) hm12
        linarith
  · exact compute_zoom_of_ge k (by linarith) hk

/-- Claim C2 counterexample: at radius 1000 km (inside the validated range
[0.01, 10000]) the function returns 6, outside the claimed interval
[7, 21]; and since the larger radius 1200 km yields 7, a larger radius
yields a strictly larger zoom level, violating monotonic non-increase. -/
theorem compute_zoom_cex :
    compute_zoom 1000 = 6 ∧ ¬ 7 ≤ compute_zoom 1000 ∧
    compute_zoom 1200 = 7 ∧
    ((0.01 : ℝ) ≤ 1000 ∧ (1000 : ℝ) ≤ 10000 ∧
      (0.01 : ℝ) ≤ 1200 ∧ (1200 : ℝ) ≤ 10000 ∧ (1000 : ℝ) ≤ 1200) ∧
    ¬ compute_zoom 1200 ≤ compute_zoom 1000 := by
  have h6 : compute_zoom 1000 = 6 := by
    rw [compute_zoom_middle 1000 (by norm_num) (by norm_num)]
    have ht0 : 0 < Real.logb 2 (1165116 / ((1000 : ℝ) * 1000)) :=
      @logb_ratio_pos ((1000 : ℝ) * 1000) (by norm_num) (by norm_num)
    have ht1 : Real.logb 2 (1165116 / ((1000 : ℝ) * 1000)) < 1 / 2 := by
      have hsq : Real.logb 2 (((1165116 : ℝ) / ((1000 : ℝ) * 1000)) ^ 2) < 1 := by
        rw [Real.logb_lt_iff_lt_rpow (by norm_num) (by positivity)]
        rw [show ((1 : ℝ)) = ((1 : ℕ) : ℝ) by norm_num, Real.rpow_natCast]
        norm_num
      rw [Real.logb_pow] at hsq
      push_cast at hsq
      linarith
    have hfr : Int.fract (6 + Real.logb 2 (1165116 / ((1000 : ℝ) * 1000))) =
        Real.logb 2 (1165116 / ((1000 : ℝ) * 1000)) := by
      rw [show (6 : ℝ) + Real.logb 2 (1165116 / ((1000 : ℝ) * 1000)) =
          ((6 : ℤ) : ℝ) + Real.logb 2 (1165116 / ((1000 : ℝ) * 1000)) by norm_num,
        Int.fract_int_add]
      exact Int.fract_eq_self.2 ⟨le_of_lt ht0, by linarith⟩
    rw [pyRound_eq_round (by rw [hfr]; exact ne_of_lt ht1), round_eq]
    rw [Int.floor_eq_iff]
    constructor
    · push_cast
      linarith
    · push_cast
      linarith
  have h7 : compute_zoom 1200 = 7 :=
    compute_zoom_of_ge 1200 (by norm_num) (by norm_num)
  refine ⟨h6, by omega, h7, by norm_num, by omega⟩

/-- Witness for C2 (amended) at concrete radii. -/
theorem compute_zoom_range_mono_w :
    ((0.01 : ℝ) ≤ 100 ∧ (100 : ℝ) ≤ 10000 ∧
      6 ≤ compute_zoom 100 ∧ compute_zoom 100 ≤ 21) ∧
    ((0 : ℝ) < 100 ∧ (100 : ℝ) ≤ 200 ∧ (200 : ℝ) * 1000 < 1164888 ∧
      compute_zoom 200 ≤ compute_zoom 100) := by
  obtain ⟨hr, hm, -⟩ := compute_zoom_range_mono
  obtain ⟨hr1, hr2⟩ := hr 100 (by norm_num) (by norm_num)
  exact ⟨⟨by norm_num, by norm_num, hr1, hr2⟩,
    ⟨by norm_num, by norm_num, by norm_num,
      hm 100 200 (by norm_num) (by norm_num) (by norm_num)⟩⟩

end Mapper
